import Mathlib

/-!
Shallow embedding of the session-registry core of the Haystack repository
(src/src/session_manager.py, with the request callback of src/src/main.py).

Modelling conventions:
* `datetime.now()` is passed explicitly as a `Nat` time stamp `now`, measured
  in minutes so that it is directly comparable with `session_timeout_minutes`;
  `datetime` subtraction and the `timedelta` comparison of `is_expired` become
  truncated `Nat` subtraction and `<` (a negative `timedelta` compares below a
  positive one exactly as `Nat` truncation yields `0`).
* a Python `dict` is an insertion-ordered association list with unique keys:
  `alook` is `d.get`, `ains` is `d[k] = v` (replace in place, else append at
  the end), `aerase` is `del d[k]`.
* `uuid.uuid4()` is modelled by a fresh counter `next_id` carried in the
  state: each `create_session` returns `next_id` and increments it.
* `float` payloads (`confidence`) are modelled as `Rat`; `Dict[str, Any]`
  payloads (`user_context`, `metadata`) as `List (String × String)`; neither
  is computed with by the code under study.
* Python exceptions are modelled with `Except`; the mutations a callback made
  before raising persist, so callbacks return their state beside the result.
-/

namespace Haystack

/-- Lookup in an association list: the first value stored under the key,
matching `dict.get`. -/
def alook {α β : Type} [DecidableEq α] (k : α) : List (α × β) → Option β
  | [] => none
  | p :: t => if p.1 = k then some p.2 else alook k t

/-- Store a value under a key: replace the first binding of the key in place,
or append a new binding at the end, matching `dict.__setitem__`. -/
def ains {α β : Type} [DecidableEq α] (k : α) (v : β) : List (α × β) → List (α × β)
  | [] => [(k, v)]
  | p :: t => if p.1 = k then (k, v) :: t else p :: ains k v t

/-- Delete every binding of a key, matching `dict.__delitem__` on the
unique-key lists a Python dict yields. -/
def aerase {α β : Type} [DecidableEq α] (k : α) : List (α × β) → List (α × β)
  | [] => []
  | p :: t => if p.1 = k then aerase k t else p :: aerase k t

theorem alook_ains_self {α β : Type} [DecidableEq α] (k : α) (v : β) (l : List (α × β)) :
    alook k (ains k v l) = some v := by
  induction l with
  | nil => simp [alook, ains]
  | cons p t ih =>
    by_cases h : p.1 = k
    · simp [alook, ains, h]
    · simp [alook, ains, h, ih]

theorem alook_ains_ne {α β : Type} [DecidableEq α] (k k' : α) (v : β) (l : List (α × β))
    (h : k' ≠ k) : alook k' (ains k v l) = alook k' l := by
  have hkk : ¬ (k = k') := fun hh => h hh.symm
  induction l with
  | nil => simp [alook, ains, hkk]
  | cons p t ih =>
    by_cases hp : p.1 = k
    · have hp' : ¬ (p.1 = k') := by rw [hp]; exact hkk
      simp [alook, ains, hp, hkk, hp']
    · by_cases hp' : p.1 = k'
      · simp [alook, ains, hp, hp', h]
      · simp [alook, ains, hp, hp', ih]

theorem alook_aerase_self {α β : Type} [DecidableEq α] (k : α) (l : List (α × β)) :
    alook k (aerase k l) = none := by
  induction l with
  | nil => simp [alook, aerase]
  | cons p t ih =>
    by_cases h : p.1 = k
    · simp [aerase, h, ih]
    · simp [alook, aerase, h, ih]

theorem alook_aerase_ne {α β : Type} [DecidableEq α] (k k' : α) (l : List (α × β))
    (h : k' ≠ k) : alook k' (aerase k l) = alook k' l := by
  have hkk : ¬ (k = k') := fun hh => h hh.symm
  induction l with
  | nil => simp [aerase]
  | cons p t ih =>
    by_cases hp : p.1 = k
    · simp [aerase, alook, hp, hkk, ih]
    · by_cases hp' : p.1 = k'
      · simp [aerase, alook, hp, hp', h]
      · simp [aerase, alook, hp, hp', ih]

theorem aerase_eq_filter {α β : Type} [DecidableEq α] (k : α) (l : List (α × β)) :
    aerase k l = l.filter (fun p => p.1 ≠ k) := by
  induction l with
  | nil => simp [aerase]
  | cons p t ih =>
    by_cases h : p.1 = k
    · simp [aerase, h, ih, List.filter]
    · simp [aerase, h, ih, List.filter]

theorem aerase_of_alook_none {α β : Type} [DecidableEq α] (k : α) (l : List (α × β))
    (h : alook k l = none) : aerase k l = l := by
  induction l with
  | nil => simp [aerase]
  | cons p t ih =>
    by_cases hp : p.1 = k
    · simp [alook, hp] at h
    · simp [alook, hp] at h
      simp [aerase, hp, ih h]

theorem ains_of_alook_some {α β : Type} [DecidableEq α] (k : α) (v : β) (l : List (α × β))
    (h : alook k l = some v) : ains k v l = l := by
  induction l with
  | nil => simp [alook] at h
  | cons p t ih =>
    obtain ⟨a, b⟩ := p
    by_cases hp : a = k
    · simp [alook, hp] at h
      simp [ains, hp, h]
    · simp [alook, hp] at h
      simp [ains, hp, ih h]

theorem alook_mem {α β : Type} [DecidableEq α] {k : α} {v : β} {l : List (α × β)}
    (h : alook k l = some v) : (k, v) ∈ l := by
  induction l with
  | nil => simp [alook] at h
  | cons p t ih =>
    obtain ⟨a, b⟩ := p
    by_cases hp : a = k
    · simp [alook, hp] at h
      rw [← hp, ← h]
      exact List.mem_cons_self _ _
    · simp [alook, hp] at h
      exact List.mem_cons_of_mem _ (ih h)

theorem mem_isSome_alook {α β : Type} [DecidableEq α] {k : α} {v : β} {l : List (α × β)}
    (h : (k, v) ∈ l) : (alook k l).isSome := by
  induction l with
  | nil => simp at h
  | cons p t ih =>
    by_cases hp : p.1 = k
    · simp [alook, hp]
    · rcases List.mem_cons.mp h with h1 | h1
      · rw [← h1] at hp; simp at hp
      · simp [alook, hp, ih h1]

theorem alook_of_mem_nodup {α β : Type} [DecidableEq α] {k : α} {v : β} {l : List (α × β)}
    (hnd : (l.map Prod.fst).Nodup) (h : (k, v) ∈ l) : alook k l = some v := by
  induction l with
  | nil => simp at h
  | cons p t ih =>
    simp only [List.map_cons, List.nodup_cons] at hnd
    rcases List.mem_cons.mp h with h1 | h1
    · rw [← h1]; simp [alook]
    · have hp : p.1 ≠ k := by
        intro hk
        exact hnd.1 (hk ▸ (List.mem_map.mpr ⟨(k, v), h1, rfl⟩))
      simp [alook, hp, ih hnd.2 h1]

theorem keys_ains_present {α β : Type} [DecidableEq α] (k : α) (v : β) (l : List (α × β))
    (h : (alook k l).isSome) : (ains k v l).map Prod.fst = l.map Prod.fst := by
  induction l with
  | nil => simp [alook] at h
  | cons p t ih =>
    by_cases hp : p.1 = k
    · simp [ains, hp]
    · simp [alook, hp] at h
      simp [ains, hp, ih h]

theorem keys_ains_absent {α β : Type} [DecidableEq α] (k : α) (v : β) (l : List (α × β))
    (h : alook k l = none) : (ains k v l).map Prod.fst = l.map Prod.fst ++ [k] := by
  induction l with
  | nil => simp [ains]
  | cons p t ih =>
    by_cases hp : p.1 = k
    · simp [alook, hp] at h
    · simp [alook, hp] at h
      simp [ains, hp, ih h]

theorem alook_none_iff_not_mem_keys {α β : Type} [DecidableEq α] (k : α) (l : List (α × β)) :
    alook k l = none ↔ k ∉ l.map Prod.fst := by
  induction l with
  | nil => simp [alook]
  | cons p t ih =>
    by_cases hp : p.1 = k
    · simp [alook, hp]
    · have hk : ¬ k = p.1 := fun hh => hp hh.symm
      simp [alook, hp, ih, hk]

theorem nodup_keys_ains {α β : Type} [DecidableEq α] (k : α) (v : β) (l : List (α × β))
    (hnd : (l.map Prod.fst).Nodup) : ((ains k v l).map Prod.fst).Nodup := by
  cases h : alook k l with
  | some w => rw [keys_ains_present k v l (by simp [h])]; exact hnd
  | none =>
    rw [keys_ains_absent k v l h]
    have hk : k ∉ l.map Prod.fst := (alook_none_iff_not_mem_keys k l).mp h
    simp [List.nodup_append, hnd, hk]

theorem nodup_keys_aerase {α β : Type} [DecidableEq α] (k : α) (l : List (α × β))
    (hnd : (l.map Prod.fst).Nodup) : ((aerase k l).map Prod.fst).Nodup := by
  rw [aerase_eq_filter]
  exact List.Nodup.sublist (List.Sublist.map Prod.fst (List.filter_sublist l)) hnd

theorem mem_aerase {α β : Type} [DecidableEq α] (k : α) (q : α × β) (l : List (α × β)) :
    q ∈ aerase k l ↔ q ∈ l ∧ q.1 ≠ k := by
  rw [aerase_eq_filter]
  simp [List.mem_filter]

theorem length_ains_present {α β : Type} [DecidableEq α] (k : α) (v : β) (l : List (α × β))
    (h : (alook k l).isSome) : (ains k v l).length = l.length := by
  have := keys_ains_present k v l h
  have h1 : ((ains k v l).map Prod.fst).length = (l.map Prod.fst).length := by rw [this]
  simpa using h1

theorem length_ains_absent {α β : Type} [DecidableEq α] (k : α) (v : β) (l : List (α × β))
    (h : alook k l = none) : (ains k v l).length = l.length + 1 := by
  have := keys_ains_absent k v l h
  have h1 : ((ains k v l).map Prod.fst).length = (l.map Prod.fst ++ [k]).length := by rw [this]
  simpa using h1

/-- ConversationTurn (session_manager.py lines 17-25): a single turn of a
conversation. `timestamp` is the `datetime.now()` of the append, `confidence`
stands in for the Python float, `metadata` for the `Dict[str, Any]`. -/
structure ConversationTurn where
  timestamp : Nat
  user_message : String
  bot_response : String
  sql_query : Option String
  confidence : Rat
  metadata : List (String × String)
deriving DecidableEq, Repr

/-- UserSession (session_manager.py lines 28-37): the per-session record held
in the registry's authoritative store. Session ids, produced by `uuid.uuid4()`
in the source, are modelled as the naturals a fresh counter hands out. -/
structure UserSession where
  session_id : Nat
  user_id : String
  created_at : Nat
  last_activity : Nat
  conversation_history : List ConversationTurn
  user_context : List (String × String)
  is_active : Bool
deriving DecidableEq, Repr

/-- UserSession.is_expired (lines 63-65): `datetime.now() - last_activity >
timedelta(minutes=timeout_minutes)`, over `Nat` minutes. -/
def UserSession.is_expired (s : UserSession) (now timeout_minutes : Nat) : Bool :=
  decide (timeout_minutes < now - s.last_activity)

/-- UserSession.add_turn (lines 39-52): append a turn built at `now` and
refresh `last_activity`. -/
def UserSession.add_turn (s : UserSession) (now : Nat) (user_message bot_response : String)
    (sql_query : Option String) (confidence : Rat) (metadata : List (String × String)) :
    UserSession :=
  { s with
    conversation_history := s.conversation_history ++
      [{ timestamp := now, user_message := user_message, bot_response := bot_response,
         sql_query := sql_query, confidence := confidence, metadata := metadata }],
    last_activity := now }

/-- SessionManager state (lines 74-81): the sessionId→Session authoritative
store, the userId→sessionId identity index, the TTL, and the counter that
models `uuid.uuid4()` freshness. -/
structure SMState where
  sessions : List (Nat × UserSession)
  user_to_session : List (String × Nat)
  session_timeout_minutes : Nat
  next_id : Nat
deriving DecidableEq, Repr

namespace SessionManager

/-- SessionManager.create_session (lines 100-123): deactivate the user's prior
session if the index names one that is still stored, then insert a fresh
session into both mappings; returns the new session id. -/
def create_session (now : Nat) (user_id : String) (user_context : List (String × String))
    (st : SMState) : Nat × SMState :=
  let st1 :=
    match Haystack.alook user_id st.user_to_session with
    | some old_session_id =>
      match Haystack.alook old_session_id st.sessions with
      | some old =>
        { st with sessions := Haystack.ains old_session_id { old with is_active := false } st.sessions }
      | none => st
    | none => st
  let session_id := st1.next_id
  let session : UserSession :=
    { session_id := session_id, user_id := user_id, created_at := now, last_activity := now,
      conversation_history := [], user_context := user_context, is_active := true }
  (session_id,
   { st1 with
     sessions := Haystack.ains session_id session st1.sessions,
     user_to_session := Haystack.ains user_id session_id st1.user_to_session,
     next_id := st1.next_id + 1 })

/-- SessionManager.get_session (lines 125-132): the session is returned only
when present and unexpired, and then its `last_activity` is refreshed to
`now` in the store; otherwise `none` and the state is untouched. -/
def get_session (now : Nat) (session_id : Nat) (st : SMState) :
    Option UserSession × SMState :=
  match Haystack.alook session_id st.sessions with
  | some s =>
    if s.is_expired now st.session_timeout_minutes then (none, st)
    else
      let s2 := { s with last_activity := now }
      (some s2, { st with sessions := Haystack.ains session_id s2 st.sessions })
  | none => (none, st)

/-- SessionManager.get_user_session (lines 134-140): resolve the user through
the identity index, then delegate to `get_session`. -/
def get_user_session (now : Nat) (user_id : String) (st : SMState) :
    Option UserSession × SMState :=
  match Haystack.alook user_id st.user_to_session with
  | some session_id => get_session now session_id st
  | none => (none, st)

/-- SessionManager.add_conversation_turn (lines 142-152): look the session up
via `get_session` and, when found, append the turn. -/
def add_conversation_turn (now : Nat) (session_id : Nat) (user_message bot_response : String)
    (sql_query : Option String) (confidence : Rat) (metadata : List (String × String))
    (st : SMState) : Bool × SMState :=
  match get_session now session_id st with
  | (some s, st1) =>
    (true,
     { st1 with
       sessions := Haystack.ains session_id
         (s.add_turn now user_message bot_response sql_query confidence metadata) st1.sessions })
  | (none, st1) => (false, st1)

/-- Python `dict.update`: fold the updates into the base dict left to right. -/
def dict_update (base updates : List (String × String)) : List (String × String) :=
  updates.foldl (fun acc p => Haystack.ains p.1 p.2 acc) base

/-- SessionManager.update_user_context (lines 154-162): merge the updates into
the session's `user_context` and refresh `last_activity`. -/
def update_user_context (now : Nat) (session_id : Nat) (context_updates : List (String × String))
    (st : SMState) : Bool × SMState :=
  match get_session now session_id st with
  | (some s, st1) =>
    (true,
     { st1 with
       sessions := Haystack.ains session_id
         { s with user_context := dict_update s.user_context context_updates,
                  last_activity := now } st1.sessions })
  | (none, st1) => (false, st1)

/-- Python slice `l[-n:]`: the last `n` elements, except that `n = 0` yields
the whole list (`l[-0:]` is `l[0:]`). -/
def pySliceLast {γ : Type} (n : Nat) (l : List γ) : List γ :=
  if n = 0 then l else l.drop (l.length - n)

/-- SessionManager.get_conversation_history (lines 164-170): look the session
up via `get_session` (which refreshes `last_activity`) and return the last
`max_turns` turns, or `[]` on a miss. -/
def get_conversation_history (now : Nat) (session_id : Nat) (max_turns : Nat) (st : SMState) :
    List ConversationTurn × SMState :=
  match get_session now session_id st with
  | (some s, st1) =>
    (if s.conversation_history.isEmpty then [] else pySliceLast max_turns s.conversation_history,
     st1)
  | (none, st1) => ([], st1)

/-- SessionManager.close_session (lines 172-184): when the session id is in
the store, mark it inactive and drop the identity-index entry when it still
points at this id; returns whether the id was found. -/
def close_session (session_id : Nat) (st : SMState) : Bool × SMState :=
  match Haystack.alook session_id st.sessions with
  | some s =>
    let st1 :=
      { st with sessions := Haystack.ains session_id { s with is_active := false } st.sessions }
    let st2 :=
      match Haystack.alook s.user_id st1.user_to_session with
      | some mapped =>
        if mapped = session_id then
          { st1 with user_to_session := Haystack.aerase s.user_id st1.user_to_session }
        else st1
      | none => st1
    (true, st2)
  | none => (false, st)

/-- SessionManager.get_session_stats result record (lines 186-198). -/
structure SessionStats where
  active_sessions : Nat
  total_sessions : Nat
  total_conversation_turns : Nat
  unique_users : Nat
deriving DecidableEq, Repr

/-- SessionManager.get_session_stats (lines 186-198). -/
def get_session_stats (st : SMState) : SessionStats :=
  { active_sessions := (st.sessions.filter (fun p => p.2.is_active)).length,
    total_sessions := st.sessions.length,
    total_conversation_turns := (st.sessions.map (fun p => p.2.conversation_history.length)).sum,
    unique_users := (st.sessions.map (fun p => p.2.user_id)).dedup.length }

/-- One iteration of the removal loop of _cleanup_expired_sessions (lines
220-224): `pop` the session and drop its identity-index entry when the entry
still points at the popped id. -/
def sweep_one (session_id : Nat) (st : SMState) : SMState :=
  match Haystack.alook session_id st.sessions with
  | some s =>
    let st1 := { st with sessions := Haystack.aerase session_id st.sessions }
    match Haystack.alook s.user_id st1.user_to_session with
    | some mapped =>
      if mapped = session_id then
        { st1 with user_to_session := Haystack.aerase s.user_id st1.user_to_session }
      else st1
    | none => st1
  | none => st

/-- The scan of _cleanup_expired_sessions (lines 214-218): ids of every stored
session that is expired or inactive. -/
def expired_ids (now : Nat) (st : SMState) : List Nat :=
  (st.sessions.filter
    (fun p => p.2.is_expired now st.session_timeout_minutes || !p.2.is_active)).map Prod.fst

/-- SessionManager._cleanup_expired_sessions (lines 211-227): collect the
expired-or-inactive ids, then remove each in turn. -/
def cleanup_expired_sessions (now : Nat) (st : SMState) : SMState :=
  (expired_ids now st).foldl (fun acc sid => sweep_one sid acc) st

end SessionManager

/-- ThreadSafeContextManager state (lines 236-239): the session-manager state
plus, for each user the manager has seen, whether that user's `asyncio.Lock`
is currently held. -/
structure CtxState where
  sm : SMState
  user_locks : List (String × Bool)
deriving DecidableEq, Repr

/-- Failures a handle call can surface to its caller: the RuntimeError raised
at line 263, or a failure raised by the injected callback. -/
inductive ReqError (ε : Type) where
  | runtime (msg : String)
  | processor (e : ε)
deriving DecidableEq

/-- An injected `processor_func` (line 249): in the source it reaches the
whole session manager through its closure, so it maps the session-manager
state, the session and the message to the state as mutated so far together
with a result or a raised error (a Python exception keeps the mutations made
before the raise). -/
def ProcessorFn (ε ρ : Type) : Type :=
  Nat → SMState → UserSession → String → SMState × Except ε ρ

namespace ThreadSafeContextManager

/-- ThreadSafeContextManager.get_user_lock (lines 241-246): create the user's
gate on first use, unheld. -/
def get_user_lock (user_id : String) (st : CtxState) : CtxState :=
  match Haystack.alook user_id st.user_locks with
  | some _ => st
  | none => { st with user_locks := Haystack.ains user_id false st.user_locks }

/-- ThreadSafeContextManager.process_user_request (lines 248-268) as one
sequential execution: acquire the user's gate, resolve or create the session,
run the injected callback, and release the gate on every exit path (the
`async with` of line 255 releases before a raised failure propagates); the
callback's failure is propagated with its state mutations kept. -/
def process_user_request {ε ρ : Type} (now : Nat) (user_id user_message : String)
    (processor_func : ProcessorFn ε ρ) (user_context : List (String × String))
    (st : CtxState) : CtxState × Except (ReqError ε) ρ :=
  let st0 := get_user_lock user_id st
  let locked : CtxState := { st0 with user_locks := Haystack.ains user_id true st0.user_locks }
  let r1 := SessionManager.get_user_session now user_id locked.sm
  let r2 :=
    match r1.1 with
    | some s => (some s, r1.2)
    | none =>
      let c := SessionManager.create_session now user_id user_context r1.2
      SessionManager.get_session now c.1 c.2
  match r2.1 with
  | none =>
    ({ sm := r2.2, user_locks := Haystack.ains user_id false locked.user_locks },
     Except.error (ReqError.runtime "Could not create or retrieve session"))
  | some s =>
    let pr := processor_func now r2.2 s user_message
    ({ sm := pr.1, user_locks := Haystack.ains user_id false locked.user_locks },
     match pr.2 with
     | Except.ok a => Except.ok a
     | Except.error e => Except.error (ReqError.processor e))

end ThreadSafeContextManager

/-- The pipeline response as main.py consumes it (main.py lines 119-141). -/
structure QueryResponse where
  response_text : String
  sql_query : Option String
  confidence : Rat
  requires_followup : Bool
deriving DecidableEq, Repr

/-- Metadata dict built at main.py line 129, its boolean rendered as text. -/
def followup_metadata (r : QueryResponse) : List (String × String) :=
  [("requires_followup", if r.requires_followup then "True" else "False")]

/-- query_processor (main.py lines 99-141), the callback main.py injects into
`process_user_request`. Its knowledge-base and Haystack-pipeline collaborators
are external services, modelled by the injected `pipeline` function from the
message and the session's user context to a response or a raised error; on
success the callback itself appends the conversation turn through
`SessionManager.add_conversation_turn` and returns the response (the
knowledge-base write of lines 132-139 does not touch the session state). -/
def query_processor {ε : Type}
    (pipeline : String → List (String × String) → Except ε QueryResponse) :
    ProcessorFn ε QueryResponse :=
  fun now sm s user_message =>
    match pipeline user_message s.user_context with
    | Except.error e => (sm, Except.error e)
    | Except.ok response =>
      let a := SessionManager.add_conversation_turn now s.session_id user_message
        response.response_text response.sql_query response.confidence
        (followup_metadata response) sm
      (a.2, Except.ok response)

theorem mem_ains {α β : Type} [DecidableEq α] {k : α} {v : β} {q : α × β} {l : List (α × β)}
    (h : q ∈ ains k v l) : q = (k, v) ∨ q ∈ l := by
  induction l with
  | nil => simpa [ains] using h
  | cons p t ih =>
    by_cases hp : p.1 = k
    · simp only [ains, hp, if_pos rfl] at h
      rcases List.mem_cons.mp h with h1 | h1
      · exact Or.inl h1
      · exact Or.inr (List.mem_cons_of_mem _ h1)
    · simp only [ains, hp, if_neg hp] at h
      rcases List.mem_cons.mp h with h1 | h1
      · exact Or.inr (h1 ▸ List.mem_cons_self _ _)
      · rcases ih h1 with h2 | h2
        · exact Or.inl h2
        · exact Or.inr (List.mem_cons_of_mem _ h2)

namespace SessionManager

theorem get_session_of_live (now sid : Nat) (st : SMState) (s0 : UserSession)
    (hs : alook sid st.sessions = some s0)
    (hlive : now - s0.last_activity ≤ st.session_timeout_minutes) :
    get_session now sid st =
      (some { s0 with last_activity := now },
       { st with sessions := ains sid { s0 with last_activity := now } st.sessions }) := by
  have hexp : s0.is_expired now st.session_timeout_minutes = false := by
    simp only [UserSession.is_expired, decide_eq_false_iff_not]
    omega
  simp [get_session, hs, hexp]

theorem get_session_of_expired (now sid : Nat) (st : SMState) (s0 : UserSession)
    (hs : alook sid st.sessions = some s0)
    (hexp : st.session_timeout_minutes < now - s0.last_activity) :
    get_session now sid st = (none, st) := by
  have h : s0.is_expired now st.session_timeout_minutes = true := by
    simpa only [UserSession.is_expired, decide_eq_true_eq] using hexp
  simp [get_session, hs, h]

theorem get_session_of_absent (now sid : Nat) (st : SMState)
    (hs : alook sid st.sessions = none) :
    get_session now sid st = (none, st) := by
  simp [get_session, hs]

theorem get_session_some_iff (now sid : Nat) (st : SMState) :
    ((get_session now sid st).1).isSome = true ↔
      ∃ s0, alook sid st.sessions = some s0 ∧
        now - s0.last_activity ≤ st.session_timeout_minutes := by
  cases hs : alook sid st.sessions with
  | none =>
    simp [get_session_of_absent now sid st hs, hs]
  | some s0 =>
    by_cases hlive : now - s0.last_activity ≤ st.session_timeout_minutes
    · simp [get_session_of_live now sid st s0 hs hlive, hs]
      omega
    · have hexp : st.session_timeout_minutes < now - s0.last_activity := by omega
      simp [get_session_of_expired now sid st s0 hs hexp, hs]
      omega

theorem get_session_none_state (now sid : Nat) (st : SMState)
    (h : (get_session now sid st).1 = none) :
    (get_session now sid st).2 = st := by
  cases hs : alook sid st.sessions with
  | none => simp [get_session_of_absent now sid st hs]
  | some s0 =>
    by_cases hlive : now - s0.last_activity ≤ st.session_timeout_minutes
    · rw [get_session_of_live now sid st s0 hs hlive] at h
      simp at h
    · have hexp : st.session_timeout_minutes < now - s0.last_activity := by omega
      simp [get_session_of_expired now sid st s0 hs hexp]

end SessionManager

/-- One identity-index entry is healthy: it names a stored session whose
`user_id` is the entry's user and whose `is_active` is true. -/
def indexEntryOk (st : SMState) (q : String × Nat) : Bool :=
  match alook q.2 st.sessions with
  | some s => decide (s.user_id = q.1) && s.is_active
  | none => false

/-- The registry invariant the reachable states satisfy: every identity-index
entry is healthy, both mappings have the unique keys a Python dict has, and
every stored session id was handed out by the freshness counter. -/
def GoodState (st : SMState) : Prop :=
  (∀ q ∈ st.user_to_session, indexEntryOk st q = true)
  ∧ (st.sessions.map Prod.fst).Nodup
  ∧ (st.user_to_session.map Prod.fst).Nodup
  ∧ ∀ p ∈ st.sessions, p.1 < st.next_id

instance (st : SMState) : Decidable (GoodState st) := by
  unfold GoodState
  infer_instance

theorem goodState_index_target {st : SMState} {u : String} {sid : Nat} (hg : GoodState st)
    (h : alook u st.user_to_session = some sid) :
    ∃ s, alook sid st.sessions = some s ∧ s.user_id = u ∧ s.is_active = true := by
  have hq := hg.1 _ (alook_mem h)
  unfold indexEntryOk at hq
  cases hs : alook sid st.sessions with
  | none => rw [hs] at hq; simp at hq
  | some s =>
    rw [hs] at hq
    simp only [Bool.and_eq_true, decide_eq_true_eq] at hq
    exact ⟨s, rfl, hq.1, hq.2⟩

theorem indexEntryOk_elim {st : SMState} {q : String × Nat} (h : indexEntryOk st q = true) :
    ∃ s, alook q.2 st.sessions = some s ∧ s.user_id = q.1 ∧ s.is_active = true := by
  unfold indexEntryOk at h
  cases hs : alook q.2 st.sessions with
  | none => rw [hs] at h; simp at h
  | some s =>
    rw [hs] at h
    simp only [Bool.and_eq_true, decide_eq_true_eq] at h
    exact ⟨s, rfl, h.1, h.2⟩

theorem indexEntryOk_intro {st : SMState} {q : String × Nat} {s : UserSession}
    (hs : alook q.2 st.sessions = some s) (hu : s.user_id = q.1) (ha : s.is_active = true) :
    indexEntryOk st q = true := by
  unfold indexEntryOk
  rw [hs]
  simp [hu, ha]

/-- Replacing a stored session by one with the same `user_id` and `is_active`
(an activity refresh, a turn append, a context update) keeps the registry
invariant. -/
theorem goodState_ains_same_identity {st : SMState} {sid : Nat} {s s' : UserSession}
    (hg : GoodState st) (hs : alook sid st.sessions = some s)
    (hu : s'.user_id = s.user_id) (ha : s'.is_active = s.is_active) :
    GoodState { st with sessions := ains sid s' st.sessions } := by
  obtain ⟨hidx, hnd1, hnd2, hfr⟩ := hg
  refine ⟨?_, ?_, hnd2, ?_⟩
  · intro q hq
    have hold := hidx q hq
    unfold indexEntryOk at hold ⊢
    dsimp only at hold ⊢
    by_cases hqs : q.2 = sid
    · rw [hqs] at hold ⊢
      rw [alook_ains_self]
      rw [hs] at hold
      simp only [Bool.and_eq_true, decide_eq_true_eq] at hold ⊢
      rw [hu, ha]
      exact hold
    · rw [alook_ains_ne sid q.2 s' st.sessions hqs]
      exact hold
  · exact nodup_keys_ains sid s' st.sessions hnd1
  · intro p hp
    rcases mem_ains hp with h1 | h1
    · have := hfr _ (alook_mem hs)
      rw [h1]
      exact this
    · exact hfr _ h1

theorem mem_ains_strong {α β : Type} [DecidableEq α] {k : α} {v : β} {q : α × β}
    {l : List (α × β)} (hnd : (l.map Prod.fst).Nodup) (h : q ∈ ains k v l) :
    q = (k, v) ∨ (q ∈ l ∧ q.1 ≠ k) := by
  induction l with
  | nil => exact Or.inl (by simpa [ains] using h)
  | cons p t ih =>
    simp only [List.map_cons, List.nodup_cons] at hnd
    by_cases hp : p.1 = k
    · simp only [ains, hp, if_pos rfl] at h
      rcases List.mem_cons.mp h with h1 | h1
      · exact Or.inl h1
      · refine Or.inr ⟨List.mem_cons_of_mem _ h1, ?_⟩
        intro hk
        exact hnd.1 (hp ▸ hk ▸ List.mem_map.mpr ⟨q, h1, rfl⟩)
    · simp only [ains, hp, if_neg hp] at h
      rcases List.mem_cons.mp h with h1 | h1
      · exact Or.inr ⟨h1 ▸ List.mem_cons_self _ _, h1 ▸ hp⟩
      · rcases ih hnd.2 h1 with h2 | h2
        · exact Or.inl h2
        · exact Or.inr ⟨List.mem_cons_of_mem _ h2.1, h2.2⟩

theorem ains_ains {α β : Type} [DecidableEq α] (k : α) (v w : β) (l : List (α × β)) :
    ains k v (ains k w l) = ains k v l := by
  induction l with
  | nil => simp [ains]
  | cons p t ih =>
    by_cases hp : p.1 = k
    · simp [ains, hp]
    · simp [ains, hp, ih]

theorem alook_filter_keys {α β : Type} [DecidableEq α] (k : α) (ids : List α)
    (l : List (α × β)) :
    alook k (l.filter (fun p => decide (p.1 ∉ ids))) =
      if k ∈ ids then none else alook k l := by
  induction l with
  | nil => simp [alook]
  | cons p t ih =>
    simp only [decide_not] at ih
    by_cases hin : p.1 ∈ ids
    · by_cases hk : p.1 = k
      · have hin' : k ∈ ids := hk ▸ hin
        simp [List.filter, hin, hin', ih]
      · simp [List.filter, hin, hk, ih, alook]
    · by_cases hk : p.1 = k
      · have hin' : k ∉ ids := hk ▸ hin
        simp [List.filter, hin, hin', alook, hk]
      · simp [List.filter, hin, alook, hk, ih]

theorem filter_aerase {α β : Type} [DecidableEq α] (a : α) (ids : List α) (l : List (α × β)) :
    (aerase a l).filter (fun p => decide (p.1 ∉ ids)) =
      l.filter (fun p => decide (p.1 ∉ a :: ids)) := by
  induction l with
  | nil => simp [aerase]
  | cons p t ih =>
    simp only [decide_not, List.mem_cons] at ih
    by_cases hp : p.1 = a
    · simp [aerase, hp, ih, List.filter]
    · by_cases hin : p.1 ∈ ids
      · simp [aerase, hp, ih, List.filter, hin]
      · simp [aerase, hp, ih, List.filter, hin]

theorem filter_value_cons {α β : Type} [DecidableEq β] (a : β) (ids : List β)
    (l : List (α × β)) :
    (l.filter (fun q => decide (q.2 ≠ a))).filter (fun q => decide (q.2 ∉ ids)) =
      l.filter (fun q => decide (q.2 ∉ a :: ids)) := by
  induction l with
  | nil => simp
  | cons p t ih =>
    simp only [decide_not, List.mem_cons] at ih
    by_cases hp : p.2 = a
    · simp [List.filter, hp, ih]
    · by_cases hin : p.2 ∈ ids
      · simp [List.filter, hp, hin, ih]
      · simp [List.filter, hp, hin, ih]

theorem goodState_get_session (now sid : Nat) {st : SMState} (hg : GoodState st) :
    GoodState (SessionManager.get_session now sid st).2 := by
  cases hs : alook sid st.sessions with
  | none => rw [SessionManager.get_session_of_absent now sid st hs]; exact hg
  | some s0 =>
    by_cases hlive : now - s0.last_activity ≤ st.session_timeout_minutes
    · rw [SessionManager.get_session_of_live now sid st s0 hs hlive]
      exact goodState_ains_same_identity hg hs rfl rfl
    · have hexp : st.session_timeout_minutes < now - s0.last_activity := by omega
      rw [SessionManager.get_session_of_expired now sid st s0 hs hexp]
      exact hg

theorem create_session_of_unmapped (now : Nat) (uid : String) (uctx : List (String × String))
    (st : SMState) (hu : alook uid st.user_to_session = none) :
    SessionManager.create_session now uid uctx st =
      (st.next_id,
       { st with
         sessions := ains st.next_id
           { session_id := st.next_id, user_id := uid, created_at := now, last_activity := now,
             conversation_history := [], user_context := uctx, is_active := true } st.sessions,
         user_to_session := ains uid st.next_id st.user_to_session,
         next_id := st.next_id + 1 }) := by
  simp [SessionManager.create_session, hu]

theorem create_session_of_mapped (now : Nat) (uid : String) (uctx : List (String × String))
    (st : SMState) (old_sid : Nat) (old : UserSession)
    (hu : alook uid st.user_to_session = some old_sid)
    (ho : alook old_sid st.sessions = some old) :
    SessionManager.create_session now uid uctx st =
      (st.next_id,
       { st with
         sessions := ains st.next_id
           { session_id := st.next_id, user_id := uid, created_at := now, last_activity := now,
             conversation_history := [], user_context := uctx, is_active := true }
           (ains old_sid { old with is_active := false } st.sessions),
         user_to_session := ains uid st.next_id st.user_to_session,
         next_id := st.next_id + 1 }) := by
  simp [SessionManager.create_session, hu, ho]

theorem goodState_next_id_fresh {st : SMState} (hg : GoodState st) :
    alook st.next_id st.sessions = none := by
  cases h : alook st.next_id st.sessions with
  | none => rfl
  | some s => exact absurd (hg.2.2.2 _ (alook_mem h)) (by omega)

theorem goodState_create_session (now : Nat) (uid : String) (uctx : List (String × String))
    {st : SMState} (hg : GoodState st) :
    GoodState (SessionManager.create_session now uid uctx st).2 := by
  have hfresh := goodState_next_id_fresh hg
  obtain ⟨hidx, hnd1, hnd2, hfr⟩ := hg
  cases hu : alook uid st.user_to_session with
  | none =>
    rw [create_session_of_unmapped now uid uctx st hu]
    unfold GoodState
    dsimp only
    refine ⟨?_, ?_, ?_, ?_⟩
    · intro q hq
      rcases mem_ains_strong hnd2 hq with h1 | h1
      · rw [h1]
        exact indexEntryOk_intro (alook_ains_self _ _ _) rfl rfl
      · obtain ⟨sq, hsq, hqu, hqa⟩ := indexEntryOk_elim (hidx q h1.1)
        have hne : q.2 ≠ st.next_id := by
          have := hfr _ (alook_mem hsq)
          omega
        refine indexEntryOk_intro ?_ hqu hqa
        rw [alook_ains_ne _ _ _ _ hne]
        exact hsq
    · exact nodup_keys_ains _ _ _ hnd1
    · exact nodup_keys_ains _ _ _ hnd2
    · intro p hp
      rcases mem_ains hp with h1 | h1
      · rw [h1]; omega
      · have := hfr _ h1; omega
  | some old_sid =>
    cases ho : alook old_sid st.sessions with
    | none =>
      obtain ⟨sq, hsq, _, _⟩ := indexEntryOk_elim (hidx _ (alook_mem hu))
      rw [hsq] at ho
      exact absurd ho (by simp)
    | some old =>
      have hold_lt : old_sid < st.next_id := hfr _ (alook_mem ho)
      have huid : old.user_id = uid := by
        obtain ⟨sq, hsq, hqu, _⟩ := indexEntryOk_elim (hidx _ (alook_mem hu))
        rw [ho] at hsq
        injection hsq with h
        rw [h]
        exact hqu
      rw [create_session_of_mapped now uid uctx st old_sid old hu ho]
      unfold GoodState
      dsimp only
      refine ⟨?_, ?_, ?_, ?_⟩
      · intro q hq
        rcases mem_ains_strong hnd2 hq with h1 | h1
        · rw [h1]
          exact indexEntryOk_intro (alook_ains_self _ _ _) rfl rfl
        · obtain ⟨sq, hsq, hqu, hqa⟩ := indexEntryOk_elim (hidx q h1.1)
          have hne1 : q.2 ≠ st.next_id := by
            have := hfr _ (alook_mem hsq)
            omega
          have hne2 : q.2 ≠ old_sid := by
            intro he
            rw [he, ho] at hsq
            have : old.user_id = q.1 := by
              injection hsq with h
              rw [h]
              exact hqu
            exact h1.2 (by rw [← this, huid])
          refine indexEntryOk_intro ?_ hqu hqa
          rw [alook_ains_ne _ _ _ _ hne1, alook_ains_ne _ _ _ _ hne2]
          exact hsq
      · refine nodup_keys_ains _ _ _ ?_
        exact nodup_keys_ains _ _ _ hnd1
      · exact nodup_keys_ains _ _ _ hnd2
      · intro p hp
        rcases mem_ains hp with h1 | h1
        · rw [h1]; omega
        · rcases mem_ains h1 with h2 | h2
          · rw [h2]; omega
          · have := hfr _ h2; omega

theorem add_conversation_turn_of_live (now sid : Nat) (msg resp : String)
    (sql : Option String) (conf : Rat) (md : List (String × String))
    (st : SMState) (s0 : UserSession)
    (hs : alook sid st.sessions = some s0)
    (hlive : now - s0.last_activity ≤ st.session_timeout_minutes) :
    SessionManager.add_conversation_turn now sid msg resp sql conf md st =
      (true,
       { st with
         sessions := ains sid
           (({ s0 with last_activity := now }).add_turn now msg resp sql conf md)
           st.sessions }) := by
  unfold SessionManager.add_conversation_turn
  rw [SessionManager.get_session_of_live now sid st s0 hs hlive]
  dsimp only
  rw [ains_ains]

theorem add_conversation_turn_of_miss (now sid : Nat) (msg resp : String)
    (sql : Option String) (conf : Rat) (md : List (String × String)) (st : SMState)
    (h : SessionManager.get_session now sid st = (none, st)) :
    SessionManager.add_conversation_turn now sid msg resp sql conf md st = (false, st) := by
  unfold SessionManager.add_conversation_turn
  rw [h]

theorem goodState_add_conversation_turn (now sid : Nat) (msg resp : String)
    (sql : Option String) (conf : Rat) (md : List (String × String))
    {st : SMState} (hg : GoodState st) :
    GoodState (SessionManager.add_conversation_turn now sid msg resp sql conf md st).2 := by
  cases hs : alook sid st.sessions with
  | none =>
    rw [add_conversation_turn_of_miss now sid msg resp sql conf md st
      (SessionManager.get_session_of_absent now sid st hs)]
    exact hg
  | some s0 =>
    by_cases hlive : now - s0.last_activity ≤ st.session_timeout_minutes
    · rw [add_conversation_turn_of_live now sid msg resp sql conf md st s0 hs hlive]
      exact goodState_ains_same_identity hg hs rfl rfl
    · rw [add_conversation_turn_of_miss now sid msg resp sql conf md st
        (SessionManager.get_session_of_expired now sid st s0 hs (by omega))]
      exact hg

theorem update_user_context_of_live (now sid : Nat) (updates : List (String × String))
    (st : SMState) (s0 : UserSession)
    (hs : alook sid st.sessions = some s0)
    (hlive : now - s0.last_activity ≤ st.session_timeout_minutes) :
    SessionManager.update_user_context now sid updates st =
      (true,
       { st with
         sessions := ains sid
           { s0 with
             user_context := SessionManager.dict_update s0.user_context updates,
             last_activity := now }
           st.sessions }) := by
  unfold SessionManager.update_user_context
  rw [SessionManager.get_session_of_live now sid st s0 hs hlive]
  dsimp only
  rw [ains_ains]

theorem update_user_context_of_miss (now sid : Nat) (updates : List (String × String))
    (st : SMState)
    (h : SessionManager.get_session now sid st = (none, st)) :
    SessionManager.update_user_context now sid updates st = (false, st) := by
  unfold SessionManager.update_user_context
  rw [h]

theorem goodState_update_user_context (now sid : Nat) (updates : List (String × String))
    {st : SMState} (hg : GoodState st) :
    GoodState (SessionManager.update_user_context now sid updates st).2 := by
  cases hs : alook sid st.sessions with
  | none =>
    rw [update_user_context_of_miss now sid updates st
      (SessionManager.get_session_of_absent now sid st hs)]
    exact hg
  | some s0 =>
    by_cases hlive : now - s0.last_activity ≤ st.session_timeout_minutes
    · rw [update_user_context_of_live now sid updates st s0 hs hlive]
      exact goodState_ains_same_identity hg hs rfl rfl
    · rw [update_user_context_of_miss now sid updates st
        (SessionManager.get_session_of_expired now sid st s0 hs (by omega))]
      exact hg

theorem goodState_get_user_session (now : Nat) (uid : String) {st : SMState}
    (hg : GoodState st) :
    GoodState (SessionManager.get_user_session now uid st).2 := by
  unfold SessionManager.get_user_session
  cases hu : alook uid st.user_to_session with
  | none => exact hg
  | some sid => exact goodState_get_session now sid hg

theorem get_conversation_history_state (now sid n : Nat) (st : SMState) :
    (SessionManager.get_conversation_history now sid n st).2 =
      (SessionManager.get_session now sid st).2 := by
  unfold SessionManager.get_conversation_history
  rcases h : SessionManager.get_session now sid st with ⟨o, st1⟩
  cases o <;> rfl

theorem goodState_close_session (sid : Nat) {st : SMState} (hg : GoodState st) :
    GoodState (SessionManager.close_session sid st).2 := by
  obtain ⟨hidx, hnd1, hnd2, hfr⟩ := hg
  unfold SessionManager.close_session
  cases hs : alook sid st.sessions with
  | none => exact ⟨hidx, hnd1, hnd2, hfr⟩
  | some s =>
    dsimp only
    have hqs_ne : ∀ q ∈ st.user_to_session, q.1 ≠ s.user_id → q.2 ≠ sid := by
      intro q hq hq1 he
      obtain ⟨sq, hsq, hqu, _⟩ := indexEntryOk_elim (hidx q hq)
      rw [he, hs] at hsq
      injection hsq with h
      exact hq1 (by rw [← hqu, h])
    cases hm : alook s.user_id st.user_to_session with
    | none =>
      dsimp only
      unfold GoodState
      dsimp only
      refine ⟨?_, ?_, hnd2, ?_⟩
      · intro q hq
        obtain ⟨sq, hsq, hqu, hqa⟩ := indexEntryOk_elim (hidx q hq)
        have hne : q.2 ≠ sid := by
          refine hqs_ne q hq ?_
          intro he
          have := mem_isSome_alook (l := st.user_to_session) (k := q.1) (v := q.2) hq
          rw [he, hm] at this
          simp at this
        refine indexEntryOk_intro ?_ hqu hqa
        rw [alook_ains_ne _ _ _ _ hne]
        exact hsq
      · exact nodup_keys_ains _ _ _ hnd1
      · intro p hp
        have hlt : sid < st.next_id := hfr _ (alook_mem hs)
        rcases mem_ains hp with h1 | h1
        · rw [h1]
          exact hlt
        · exact hfr _ h1
    | some m =>
      dsimp only
      by_cases hmsid : m = sid
      · rw [if_pos hmsid]
        unfold GoodState
        dsimp only
        refine ⟨?_, ?_, ?_, ?_⟩
        · intro q hq
          have hq' := (mem_aerase _ _ _).mp hq
          obtain ⟨sq, hsq, hqu, hqa⟩ := indexEntryOk_elim (hidx q hq'.1)
          have hne : q.2 ≠ sid := hqs_ne q hq'.1 hq'.2
          refine indexEntryOk_intro ?_ hqu hqa
          rw [alook_ains_ne _ _ _ _ hne]
          exact hsq
        · exact nodup_keys_ains _ _ _ hnd1
        · exact nodup_keys_aerase _ _ hnd2
        · intro p hp
          have hlt : sid < st.next_id := hfr _ (alook_mem hs)
          rcases mem_ains hp with h1 | h1
          · rw [h1]
            exact hlt
          · exact hfr _ h1
      · rw [if_neg hmsid]
        unfold GoodState
        dsimp only
        refine ⟨?_, ?_, hnd2, ?_⟩
        · intro q hq
          obtain ⟨sq, hsq, hqu, hqa⟩ := indexEntryOk_elim (hidx q hq)
          have hne : q.2 ≠ sid := by
            intro he
            have hq1 : q.1 = s.user_id := by
              rw [he, hs] at hsq
              injection hsq with hss
              rw [← hqu, hss]
            have halq := alook_of_mem_nodup hnd2 hq
            rw [hq1, hm] at halq
            injection halq with h2
            exact hmsid (h2.trans he)
          refine indexEntryOk_intro ?_ hqu hqa
          rw [alook_ains_ne _ _ _ _ hne]
          exact hsq
        · exact nodup_keys_ains _ _ _ hnd1
        · intro p hp
          have hlt : sid < st.next_id := hfr _ (alook_mem hs)
          rcases mem_ains hp with h1 | h1
          · rw [h1]
            exact hlt
          · exact hfr _ h1

theorem sweep_one_eq (sid : Nat) {st : SMState} (hg : GoodState st) :
    SessionManager.sweep_one sid st =
      { st with
        sessions := aerase sid st.sessions,
        user_to_session := st.user_to_session.filter (fun q => decide (q.2 ≠ sid)) } := by
  obtain ⟨hidx, hnd1, hnd2, hfr⟩ := hg
  unfold SessionManager.sweep_one
  cases hs : alook sid st.sessions with
  | none =>
    have h1 : aerase sid st.sessions = st.sessions := aerase_of_alook_none sid _ hs
    have h2 : st.user_to_session.filter (fun q => decide (q.2 ≠ sid)) = st.user_to_session := by
      apply List.filter_eq_self.mpr
      intro q hq
      obtain ⟨sq, hsq, _, _⟩ := indexEntryOk_elim (hidx q hq)
      simp only [decide_eq_true_eq]
      intro he
      rw [he, hs] at hsq
      exact absurd hsq (by simp)
    rw [h1, h2]
  | some s =>
    dsimp only
    cases hm : alook s.user_id st.user_to_session with
    | none =>
      dsimp only
      have h2 : st.user_to_session.filter (fun q => decide (q.2 ≠ sid)) = st.user_to_session := by
        apply List.filter_eq_self.mpr
        intro q hq
        obtain ⟨sq, hsq, hqu, _⟩ := indexEntryOk_elim (hidx q hq)
        simp only [decide_eq_true_eq]
        intro he
        rw [he, hs] at hsq
        injection hsq with hss
        have hq1 : q.1 = s.user_id := by rw [← hqu, hss]
        have := mem_isSome_alook (l := st.user_to_session) (k := q.1) (v := q.2) hq
        rw [hq1, hm] at this
        simp at this
      rw [h2]
    | some m =>
      dsimp only
      by_cases hmsid : m = sid
      · rw [if_pos hmsid]
        have h2 : aerase s.user_id st.user_to_session =
            st.user_to_session.filter (fun q => decide (q.2 ≠ sid)) := by
          rw [aerase_eq_filter]
          apply List.filter_congr
          intro q hq
          obtain ⟨sq, hsq, hqu, _⟩ := indexEntryOk_elim (hidx q hq)
          simp only [decide_eq_decide]
          constructor
          · intro hq1 he
            rw [he, hs] at hsq
            injection hsq with hss
            exact hq1 (by rw [← hqu, hss])
          · intro hq2 he
            have halq := alook_of_mem_nodup hnd2 hq
            rw [he, hm] at halq
            injection halq with h2
            exact hq2 (by rw [← h2, hmsid])
        rw [h2]
      · rw [if_neg hmsid]
        have h2 : st.user_to_session.filter (fun q => decide (q.2 ≠ sid)) = st.user_to_session := by
          apply List.filter_eq_self.mpr
          intro q hq
          obtain ⟨sq, hsq, hqu, _⟩ := indexEntryOk_elim (hidx q hq)
          simp only [decide_eq_true_eq]
          intro he
          rw [he, hs] at hsq
          injection hsq with hss
          have hq1 : q.1 = s.user_id := by rw [← hqu, hss]
          have halq := alook_of_mem_nodup hnd2 hq
          rw [hq1, hm] at halq
          injection halq with h2
          exact hmsid (h2.trans he)
        rw [h2]

theorem goodState_sweep_one (sid : Nat) {st : SMState} (hg : GoodState st) :
    GoodState (SessionManager.sweep_one sid st) := by
  rw [sweep_one_eq sid hg]
  obtain ⟨hidx, hnd1, hnd2, hfr⟩ := hg
  unfold GoodState
  dsimp only
  refine ⟨?_, ?_, ?_, ?_⟩
  · intro q hq
    have hq' := List.mem_filter.mp hq
    obtain ⟨sq, hsq, hqu, hqa⟩ := indexEntryOk_elim (hidx q hq'.1)
    have hne : q.2 ≠ sid := by simpa using hq'.2
    refine indexEntryOk_intro ?_ hqu hqa
    rw [alook_aerase_ne sid q.2 _ hne]
    exact hsq
  · exact nodup_keys_aerase _ _ hnd1
  · exact List.Nodup.sublist (List.Sublist.map Prod.fst (List.filter_sublist _)) hnd2
  · intro p hp
    exact hfr _ ((mem_aerase _ _ _).mp hp).1

theorem goodState_foldl_sweep (ids : List Nat) {st : SMState} (hg : GoodState st) :
    GoodState (ids.foldl (fun acc s => SessionManager.sweep_one s acc) st) := by
  induction ids generalizing st with
  | nil => exact hg
  | cons a t ih => exact ih (goodState_sweep_one a hg)

theorem foldl_sweep_eq (ids : List Nat) {st : SMState} (hg : GoodState st) :
    ids.foldl (fun acc s => SessionManager.sweep_one s acc) st =
      { st with
        sessions := st.sessions.filter (fun p => decide (p.1 ∉ ids)),
        user_to_session := st.user_to_session.filter (fun q => decide (q.2 ∉ ids)) } := by
  induction ids generalizing st with
  | nil => simp
  | cons a t ih =>
    rw [List.foldl_cons, ih (goodState_sweep_one a hg), sweep_one_eq a hg]
    dsimp only
    rw [filter_aerase, filter_value_cons]

theorem cleanup_eq (now : Nat) {st : SMState} (hg : GoodState st) :
    SessionManager.cleanup_expired_sessions now st =
      { st with
        sessions := st.sessions.filter
          (fun p => decide (p.1 ∉ SessionManager.expired_ids now st)),
        user_to_session := st.user_to_session.filter
          (fun q => decide (q.2 ∉ SessionManager.expired_ids now st)) } :=
  foldl_sweep_eq _ hg

theorem goodState_cleanup (now : Nat) {st : SMState} (hg : GoodState st) :
    GoodState (SessionManager.cleanup_expired_sessions now st) :=
  goodState_foldl_sweep _ hg

theorem mem_expired_ids (now : Nat) (st : SMState) {sid : Nat} {s : UserSession}
    (hmem : (sid, s) ∈ st.sessions)
    (hbad : (s.is_expired now st.session_timeout_minutes || !s.is_active) = true) :
    sid ∈ SessionManager.expired_ids now st := by
  unfold SessionManager.expired_ids
  exact List.mem_map.mpr ⟨(sid, s), List.mem_filter.mpr ⟨hmem, hbad⟩, rfl⟩

theorem expired_ids_mem (now : Nat) (st : SMState) {sid : Nat}
    (h : sid ∈ SessionManager.expired_ids now st) :
    ∃ s, (sid, s) ∈ st.sessions ∧
      (s.is_expired now st.session_timeout_minutes || !s.is_active) = true := by
  unfold SessionManager.expired_ids at h
  obtain ⟨p, hp, hps⟩ := List.mem_map.mp h
  have hf := List.mem_filter.mp hp
  exact ⟨p.2, by rw [← hps]; exact hf.1, hf.2⟩

/-- One registry operation, as the registry exposes them: create_session,
get_session, get_user_session, add_conversation_turn, update_user_context,
get_conversation_history, close_session, and the sweep. -/
inductive Op where
  | create (now : Nat) (uid : String) (uctx : List (String × String))
  | get (now sid : Nat)
  | getUser (now : Nat) (uid : String)
  | addTurn (now sid : Nat) (msg resp : String) (sql : Option String) (conf : Rat)
      (md : List (String × String))
  | updateCtx (now sid : Nat) (updates : List (String × String))
  | history (now sid maxTurns : Nat)
  | close (sid : Nat)
  | sweep (now : Nat)

/-- The state effect of one registry operation (return values discarded). -/
def applyOp (st : SMState) : Op → SMState
  | Op.create now uid uctx => (SessionManager.create_session now uid uctx st).2
  | Op.get now sid => (SessionManager.get_session now sid st).2
  | Op.getUser now uid => (SessionManager.get_user_session now uid st).2
  | Op.addTurn now sid msg resp sql conf md =>
      (SessionManager.add_conversation_turn now sid msg resp sql conf md st).2
  | Op.updateCtx now sid updates => (SessionManager.update_user_context now sid updates st).2
  | Op.history now sid maxTurns =>
      (SessionManager.get_conversation_history now sid maxTurns st).2
  | Op.close sid => (SessionManager.close_session sid st).2
  | Op.sweep now => SessionManager.cleanup_expired_sessions now st

/-- SessionManager.__init__ (lines 74-81): both mappings start empty. -/
def initState (session_timeout_minutes : Nat) : SMState :=
  { sessions := [], user_to_session := [], session_timeout_minutes := session_timeout_minutes,
    next_id := 0 }

/-- Run a sequence of registry operations against a freshly constructed
manager. -/
def runOps (session_timeout_minutes : Nat) (ops : List Op) : SMState :=
  ops.foldl applyOp (initState session_timeout_minutes)

theorem goodState_initState (m : Nat) : GoodState (initState m) := by
  refine ⟨?_, ?_, ?_, ?_⟩ <;> simp [initState]

theorem goodState_applyOp {st : SMState} (hg : GoodState st) (op : Op) :
    GoodState (applyOp st op) := by
  cases op with
  | create now uid uctx => exact goodState_create_session now uid uctx hg
  | get now sid => exact goodState_get_session now sid hg
  | getUser now uid => exact goodState_get_user_session now uid hg
  | addTurn now sid msg resp sql conf md =>
    exact goodState_add_conversation_turn now sid msg resp sql conf md hg
  | updateCtx now sid updates => exact goodState_update_user_context now sid updates hg
  | history now sid maxTurns =>
    show GoodState (SessionManager.get_conversation_history now sid maxTurns st).2
    rw [get_conversation_history_state]
    exact goodState_get_session now sid hg
  | close sid => exact goodState_close_session sid hg
  | sweep now => exact goodState_cleanup now hg

theorem goodState_runOps (m : Nat) (ops : List Op) : GoodState (runOps m ops) := by
  unfold runOps
  have h : ∀ st : SMState, GoodState st → GoodState (ops.foldl applyOp st) := by
    induction ops with
    | nil => intro st hg; exact hg
    | cons o t ih => intro st hg; exact ih _ (goodState_applyOp hg o)
  exact h _ (goodState_initState m)

theorem next_id_fresh {st : SMState} (hfresh : ∀ p ∈ st.sessions, p.1 < st.next_id) :
    alook st.next_id st.sessions = none := by
  cases h : alook st.next_id st.sessions with
  | none => rfl
  | some s => exact absurd (hfresh _ (alook_mem h)) (by omega)

theorem create_session_of_dangling (now : Nat) (uid : String) (uctx : List (String × String))
    (st : SMState) (old_sid : Nat)
    (hu : alook uid st.user_to_session = some old_sid)
    (ho : alook old_sid st.sessions = none) :
    SessionManager.create_session now uid uctx st =
      (st.next_id,
       { st with
         sessions := ains st.next_id
           { session_id := st.next_id, user_id := uid, created_at := now, last_activity := now,
             conversation_history := [], user_context := uctx, is_active := true } st.sessions,
         user_to_session := ains uid st.next_id st.user_to_session,
         next_id := st.next_id + 1 }) := by
  simp [SessionManager.create_session, hu, ho]

theorem get_session_some_elim (t sid : Nat) (st : SMState) {s : UserSession}
    (h : (SessionManager.get_session t sid st).1 = some s) :
    ∃ s0, alook sid st.sessions = some s0 ∧ s = { s0 with last_activity := t } := by
  cases hs : alook sid st.sessions with
  | none =>
    rw [SessionManager.get_session_of_absent t sid st hs] at h
    simp at h
  | some s0 =>
    by_cases hlive : t - s0.last_activity ≤ st.session_timeout_minutes
    · rw [SessionManager.get_session_of_live t sid st s0 hs hlive] at h
      injection h with h1
      exact ⟨s0, rfl, h1.symm⟩
    · rw [SessionManager.get_session_of_expired t sid st s0 hs (by omega)] at h
      simp at h

theorem sweep_one_sessions (sid : Nat) (st : SMState) :
    (SessionManager.sweep_one sid st).sessions = aerase sid st.sessions := by
  unfold SessionManager.sweep_one
  cases hs : alook sid st.sessions with
  | none => exact (aerase_of_alook_none sid _ hs).symm
  | some s =>
    dsimp only
    cases alook s.user_id st.user_to_session with
    | none => rfl
    | some m =>
      dsimp only
      by_cases hm : m = sid
      · rw [if_pos hm]
      · rw [if_neg hm]

theorem foldl_sweep_sessions (ids : List Nat) (st : SMState) :
    (ids.foldl (fun acc s => SessionManager.sweep_one s acc) st).sessions =
      st.sessions.filter (fun p => decide (p.1 ∉ ids)) := by
  induction ids generalizing st with
  | nil => simp
  | cons a t ih =>
    rw [List.foldl_cons, ih, sweep_one_sessions]
    exact filter_aerase a t st.sessions

theorem cleanup_sessions (now : Nat) (st : SMState) :
    (SessionManager.cleanup_expired_sessions now st).sessions =
      st.sessions.filter (fun p => decide (p.1 ∉ SessionManager.expired_ids now st)) :=
  foldl_sweep_sessions _ _

theorem alook_filter_values {α β : Type} [DecidableEq α] [DecidableEq β] (k : α)
    (ids : List β) (l : List (α × β)) (hnd : (l.map Prod.fst).Nodup) :
    alook k (l.filter (fun q => decide (q.2 ∉ ids))) =
      match alook k l with
      | some v => if v ∈ ids then none else some v
      | none => none := by
  induction l with
  | nil => simp [alook]
  | cons p t ih =>
    simp only [List.map_cons, List.nodup_cons] at hnd
    simp only [decide_not] at ih
    by_cases hp : p.1 = k
    · by_cases hv : p.2 ∈ ids
      · have hnone : alook k (t.filter (fun q => !decide (q.2 ∈ ids))) = none := by
          rw [alook_none_iff_not_mem_keys]
          intro hk
          obtain ⟨q, hq, hqk⟩ := List.mem_map.mp hk
          exact hnd.1 (hp ▸ hqk ▸ List.mem_map.mpr ⟨q, (List.mem_filter.mp hq).1, rfl⟩)
        simp [List.filter, hv, alook, hp, hnone]
      · simp [List.filter, hv, alook, hp]
    · by_cases hv : p.2 ∈ ids
      · simp [List.filter, hv, alook, hp, ih hnd.2]
      · simp [List.filter, hv, alook, hp, ih hnd.2]

theorem get_user_lock_sm (uid : String) (st : CtxState) :
    (ThreadSafeContextManager.get_user_lock uid st).sm = st.sm := by
  unfold ThreadSafeContextManager.get_user_lock
  cases alook uid st.user_locks <;> rfl

/-- When the user's identity-index entry names a stored, unexpired session,
`process_user_request` resolves it (refreshing its activity stamp), hands the
refreshed session and the refreshed state to the injected callback, keeps the
callback's final state, releases the gate on both exit paths, and wraps the
callback's outcome. -/
theorem process_user_request_live {ε ρ : Type} (now : Nat) (uid msg : String)
    (f : ProcessorFn ε ρ) (uctx : List (String × String)) (st : CtxState)
    (sid : Nat) (s0 : UserSession)
    (hidx : alook uid st.sm.user_to_session = some sid)
    (hs : alook sid st.sm.sessions = some s0)
    (hlive : now - s0.last_activity ≤ st.sm.session_timeout_minutes) :
    ThreadSafeContextManager.process_user_request now uid msg f uctx st =
      ({ sm :=
           (f now
             { st.sm with
               sessions := ains sid { s0 with last_activity := now } st.sm.sessions }
             { s0 with last_activity := now } msg).1,
         user_locks :=
           ains uid false
             (ains uid true (ThreadSafeContextManager.get_user_lock uid st).user_locks) },
       match
         (f now
           { st.sm with
             sessions := ains sid { s0 with last_activity := now } st.sm.sessions }
           { s0 with last_activity := now } msg).2 with
       | Except.ok a => Except.ok a
       | Except.error e => Except.error (ReqError.processor e)) := by
  simp only [ThreadSafeContextManager.process_user_request]
  simp only [get_user_lock_sm]
  simp only [SessionManager.get_user_session]
  rw [hidx]
  dsimp only
  rw [SessionManager.get_session_of_live now sid st.sm s0 hs hlive]

/-- A live session for user "alice", stored under id 0, last active at time 0. -/
def aliceSession : UserSession :=
  { session_id := 0, user_id := "alice", created_at := 0, last_activity := 0,
    conversation_history := [], user_context := [], is_active := true }

/-- A one-session registry: "alice" owns session 0, TTL 60 minutes. -/
def aliceSM : SMState :=
  { sessions := [(0, aliceSession)], user_to_session := [("alice", 0)],
    session_timeout_minutes := 60, next_id := 1 }

/-- The coordinator state over `aliceSM`, no gates created yet. -/
def aliceCtx : CtxState := { sm := aliceSM, user_locks := [] }

/-- The session `close_session` leaves behind: inactive but still stored. -/
def closedSession : UserSession := { aliceSession with is_active := false }

/-- A registry holding only the closed session, its index entry already
removed, as the state stands right after `close_session`. -/
def closedState : SMState :=
  { sessions := [(0, closedSession)], user_to_session := [],
    session_timeout_minutes := 60, next_id := 1 }

/-- C1: `get_session` returns the stored session exactly when it is present in
the authoritative store and unexpired (now − last_activity ≤ TTL); every hit
refreshes the session's `last_activity` to `now` in the store (sliding
expiration) and every miss leaves the state untouched; hence a session whose
last activity is T with TTL M is retrievable at every time up to and
including T+M and at no time after T+M. -/
theorem get_session_sliding_expiration (now sid : Nat) (st : SMState) :
    (((SessionManager.get_session now sid st).1).isSome = true ↔
      ∃ s0, alook sid st.sessions = some s0 ∧
        now - s0.last_activity ≤ st.session_timeout_minutes)
    ∧ (∀ s0, alook sid st.sessions = some s0 →
        now - s0.last_activity ≤ st.session_timeout_minutes →
        (SessionManager.get_session now sid st).1 = some { s0 with last_activity := now } ∧
        alook sid (SessionManager.get_session now sid st).2.sessions =
          some { s0 with last_activity := now })
    ∧ ((SessionManager.get_session now sid st).1 = none →
        (SessionManager.get_session now sid st).2 = st)
    ∧ (∀ s0 t, alook sid st.sessions = some s0 →
        (t ≤ s0.last_activity + st.session_timeout_minutes →
          ((SessionManager.get_session t sid st).1).isSome = true) ∧
        (s0.last_activity + st.session_timeout_minutes < t →
          (SessionManager.get_session t sid st).1 = none)) := by
  refine ⟨SessionManager.get_session_some_iff now sid st, ?_,
    SessionManager.get_session_none_state now sid st, ?_⟩
  · intro s0 hs hlive
    rw [SessionManager.get_session_of_live now sid st s0 hs hlive]
    exact ⟨rfl, alook_ains_self _ _ _⟩
  · intro s0 t hs
    constructor
    · intro ht
      exact (SessionManager.get_session_some_iff t sid st).mpr ⟨s0, hs, by omega⟩
    · intro ht
      rw [SessionManager.get_session_of_expired t sid st s0 hs (by omega)]

/-- C2 counterexample: session 0 of `closedState` is closed (is_active false)
and unexpired at time 0, yet `add_conversation_turn` returns true and appends
the turn — the claim says such a call returns false and appends nothing. -/
theorem add_turn_closed_session_cex :
    closedSession.is_active = false
    ∧ closedSession.is_expired 0 closedState.session_timeout_minutes = false
    ∧ (SessionManager.add_conversation_turn 0 0 "hi" "hello" none 0 [] closedState).1 = true
    ∧ ((SessionManager.add_conversation_turn 0 0 "hi" "hello" none 0 []
        closedState).2.sessions.map (fun p => p.2.conversation_history.length)) = [1] := by
  refine ⟨rfl, rfl, rfl, rfl⟩

/-- C2 amended: `add_conversation_turn` returns true iff the session is
present and unexpired — `is_active` is not consulted, so a closed but
unexpired session still accepts the turn; on success the turn is appended and
`last_activity` refreshed, and on failure the state is untouched. -/
theorem add_conversation_turn_found_unexpired (now sid : Nat) (msg resp : String)
    (sql : Option String) (conf : Rat) (md : List (String × String)) (st : SMState) :
    ((SessionManager.add_conversation_turn now sid msg resp sql conf md st).1 = true ↔
      ∃ s0, alook sid st.sessions = some s0 ∧
        now - s0.last_activity ≤ st.session_timeout_minutes)
    ∧ (∀ s0, alook sid st.sessions = some s0 →
        now - s0.last_activity ≤ st.session_timeout_minutes →
        alook sid
          (SessionManager.add_conversation_turn now sid msg resp sql conf md st).2.sessions =
          some { s0 with
                 last_activity := now,
                 conversation_history := s0.conversation_history ++
                   [{ timestamp := now, user_message := msg, bot_response := resp,
                      sql_query := sql, confidence := conf, metadata := md }] })
    ∧ ((SessionManager.add_conversation_turn now sid msg resp sql conf md st).1 = false →
        (SessionManager.add_conversation_turn now sid msg resp sql conf md st).2 = st) := by
  refine ⟨⟨?_, ?_⟩, ?_, ?_⟩
  · intro h
    cases hs : alook sid st.sessions with
    | none =>
      rw [add_conversation_turn_of_miss now sid msg resp sql conf md st
        (SessionManager.get_session_of_absent now sid st hs)] at h
      exact absurd h (by simp)
    | some s0 =>
      by_cases hlive : now - s0.last_activity ≤ st.session_timeout_minutes
      · exact ⟨s0, rfl, hlive⟩
      · rw [add_conversation_turn_of_miss now sid msg resp sql conf md st
          (SessionManager.get_session_of_expired now sid st s0 hs (by omega))] at h
        exact absurd h (by simp)
  · rintro ⟨s0, hs, hlive⟩
    rw [add_conversation_turn_of_live now sid msg resp sql conf md st s0 hs hlive]
  · intro s0 hs hlive
    rw [add_conversation_turn_of_live now sid msg resp sql conf md st s0 hs hlive]
    exact alook_ains_self _ _ _
  · intro h
    cases hs : alook sid st.sessions with
    | none =>
      rw [add_conversation_turn_of_miss now sid msg resp sql conf md st
        (SessionManager.get_session_of_absent now sid st hs)]
    | some s0 =>
      by_cases hlive : now - s0.last_activity ≤ st.session_timeout_minutes
      · rw [add_conversation_turn_of_live now sid msg resp sql conf md st s0 hs hlive] at h
        exact absurd h (by simp)
      · rw [add_conversation_turn_of_miss now sid msg resp sql conf md st
          (SessionManager.get_session_of_expired now sid st s0 hs (by omega))]

/-- A callback that computes a result and appends nothing to any session. -/
def pureProcessor : ProcessorFn Unit Nat := fun _ sm _ _ => (sm, Except.ok 7)

/-- A callback that raises immediately, leaving the registry untouched, as an
injected `processor_func` that fails before any session mutation. -/
def failingProcessor {ε ρ : Type} (e : ε) : ProcessorFn ε ρ :=
  fun _ sm _ _ => (sm, Except.error e)

/-- C3 counterexample: with an injected processFn that appends nothing, a
successful `process_user_request` call leaves the turn log at length 0 — the
coordinator itself appends no turn after the callback returns, so the log
does not grow by one as the claim asserts. -/
theorem process_user_request_no_append_cex :
    ((ThreadSafeContextManager.process_user_request 0 "alice" "hi" pureProcessor []
        aliceCtx).2 = Except.ok 7)
    ∧ ((ThreadSafeContextManager.process_user_request 0 "alice" "hi" pureProcessor []
        aliceCtx).1.sm.sessions.map (fun p => p.2.conversation_history.length)) = [0] := by
  refine ⟨rfl, rfl⟩

/-- C3 amended: `process_user_request` delegates turn recording to the
injected callback: with any state-preserving callback the coordinator's final
store shows only the lookup's activity refresh (no turn), while with the
repository's own `query_processor` callback a successful call grows the
session's turn log by exactly one turn carrying the pipeline response,
appended by the callback via `add_conversation_turn`. -/
theorem query_processor_appends_turn {ε : Type} (now : Nat) (uid msg : String)
    (pipeline : String → List (String × String) → Except ε QueryResponse)
    (uctx : List (String × String)) (st : CtxState) (sid : Nat) (s0 : UserSession)
    (resp : QueryResponse)
    (hidx : alook uid st.sm.user_to_session = some sid)
    (hs : alook sid st.sm.sessions = some s0)
    (hsid : s0.session_id = sid)
    (hlive : now - s0.last_activity ≤ st.sm.session_timeout_minutes)
    (hpipe : ∀ c, pipeline msg c = Except.ok resp) :
    ((ThreadSafeContextManager.process_user_request now uid msg (query_processor pipeline)
        uctx st).2 = Except.ok resp)
    ∧ alook sid (ThreadSafeContextManager.process_user_request now uid msg
        (query_processor pipeline) uctx st).1.sm.sessions =
      some { s0 with
             last_activity := now,
             conversation_history := s0.conversation_history ++
               [{ timestamp := now, user_message := msg,
                  bot_response := resp.response_text, sql_query := resp.sql_query,
                  confidence := resp.confidence, metadata := followup_metadata resp }] }
    ∧ (∀ g : ProcessorFn ε Nat, (∀ n sm sess m, (g n sm sess m).1 = sm) →
        (ThreadSafeContextManager.process_user_request now uid msg g uctx st).1.sm.sessions =
          ains sid { s0 with last_activity := now } st.sm.sessions) := by
  have hexp : s0.is_expired now st.sm.session_timeout_minutes = false := by
    simp only [UserSession.is_expired, decide_eq_false_iff_not]
    omega
  have hnexp : ¬ (st.sm.session_timeout_minutes < now - s0.last_activity) := by omega
  have hnexp2 : ¬ (st.sm.session_timeout_minutes < now - now) := by omega
  refine ⟨?_, ?_, ?_⟩
  · simp [ThreadSafeContextManager.process_user_request, get_user_lock_sm,
      SessionManager.get_user_session, SessionManager.get_session, hidx, hs, hexp,
      query_processor, hpipe, hsid, SessionManager.add_conversation_turn, alook_ains_self,
      ains_ains, UserSession.add_turn, UserSession.is_expired, hnexp, hnexp2]
  · simp [ThreadSafeContextManager.process_user_request, get_user_lock_sm,
      SessionManager.get_user_session, SessionManager.get_session, hidx, hs, hexp,
      query_processor, hpipe, hsid, SessionManager.add_conversation_turn, alook_ains_self,
      ains_ains, UserSession.add_turn, UserSession.is_expired, hnexp, hnexp2]
  · intro g hg
    rw [process_user_request_live now uid msg g uctx st sid s0 hidx hs hlive]
    dsimp only
    rw [hg]

/-- C4: when the injected callback raises, `process_user_request` propagates
the failure to its caller, the user's gate is released on that exit path, no
turn is appended, and the registry is unchanged except for the
`last_activity` refresh the session lookup performed. -/
theorem process_failure_propagation {ε ρ : Type} (now : Nat) (uid msg : String) (e : ε)
    (uctx : List (String × String)) (st : CtxState) (sid : Nat) (s0 : UserSession)
    (hidx : alook uid st.sm.user_to_session = some sid)
    (hs : alook sid st.sm.sessions = some s0)
    (hlive : now - s0.last_activity ≤ st.sm.session_timeout_minutes) :
    ((ThreadSafeContextManager.process_user_request now uid msg
        (failingProcessor e : ProcessorFn ε ρ) uctx st).2 =
      Except.error (ReqError.processor e))
    ∧ alook uid (ThreadSafeContextManager.process_user_request now uid msg
        (failingProcessor e : ProcessorFn ε ρ) uctx st).1.user_locks = some false
    ∧ alook sid (ThreadSafeContextManager.process_user_request now uid msg
        (failingProcessor e : ProcessorFn ε ρ) uctx st).1.sm.sessions =
      some { s0 with last_activity := now }
    ∧ (∀ sid2, sid2 ≠ sid →
        alook sid2 (ThreadSafeContextManager.process_user_request now uid msg
          (failingProcessor e : ProcessorFn ε ρ) uctx st).1.sm.sessions =
        alook sid2 st.sm.sessions)
    ∧ (ThreadSafeContextManager.process_user_request now uid msg
        (failingProcessor e : ProcessorFn ε ρ) uctx st).1.sm.user_to_session =
      st.sm.user_to_session := by
  rw [process_user_request_live now uid msg (failingProcessor e : ProcessorFn ε ρ) uctx st
    sid s0 hidx hs hlive]
  refine ⟨rfl, alook_ains_self _ _ _, alook_ains_self _ _ _, ?_, rfl⟩
  intro sid2 hne
  exact alook_ains_ne _ _ _ _ hne

/-- C4 witness: the failure-propagation theorem applied to the concrete
one-session registry of "alice" with a unit-raising callback. -/
theorem process_failure_propagation_witness :
    (ThreadSafeContextManager.process_user_request 0 "alice" "hi"
        (failingProcessor () : ProcessorFn Unit Nat) [] aliceCtx).2 =
      Except.error (ReqError.processor ()) :=
  (process_failure_propagation 0 "alice" "hi" () [] aliceCtx 0 aliceSession
    rfl rfl (by decide)).1

/-- C3 witness data: a pipeline stub that always succeeds. -/
def demoResponse : QueryResponse :=
  { response_text := "hello", sql_query := none, confidence := 0, requires_followup := false }

/-- A pipeline collaborator stub returning `demoResponse` on every input. -/
def demoPipeline : String → List (String × String) → Except Unit QueryResponse :=
  fun _ _ => Except.ok demoResponse

/-- C3 witness: the amended theorem applied to the concrete registry of
"alice" with the stub pipeline. -/
theorem query_processor_appends_turn_witness :
    (ThreadSafeContextManager.process_user_request 0 "alice" "hi"
        (query_processor demoPipeline) [] aliceCtx).2 = Except.ok demoResponse :=
  (query_processor_appends_turn 0 "alice" "hi" demoPipeline [] aliceCtx 0 aliceSession
    demoResponse rfl rfl rfl (by decide) (fun c => rfl)).1

theorem create_session_facts (now : Nat) (uid : String) (c : List (String × String))
    (st : SMState) (hfresh : ∀ p ∈ st.sessions, p.1 < st.next_id) :
    (SessionManager.create_session now uid c st).1 = st.next_id
    ∧ (SessionManager.create_session now uid c st).2.next_id = st.next_id + 1
    ∧ alook uid (SessionManager.create_session now uid c st).2.user_to_session =
        some st.next_id
    ∧ alook st.next_id (SessionManager.create_session now uid c st).2.sessions =
        some { session_id := st.next_id, user_id := uid, created_at := now,
               last_activity := now, conversation_history := [], user_context := c,
               is_active := true }
    ∧ (SessionManager.create_session now uid c st).2.sessions.length = st.sessions.length + 1
    ∧ (∀ p ∈ (SessionManager.create_session now uid c st).2.sessions, p.1 < st.next_id + 1)
    ∧ (SessionManager.create_session now uid c st).2.session_timeout_minutes =
        st.session_timeout_minutes := by
  have hnone := next_id_fresh hfresh
  cases hu : alook uid st.user_to_session with
  | none =>
    rw [create_session_of_unmapped now uid c st hu]
    refine ⟨rfl, rfl, alook_ains_self _ _ _, alook_ains_self _ _ _, ?_, ?_, rfl⟩
    · exact length_ains_absent _ _ _ hnone
    · intro p hp
      rcases mem_ains hp with h1 | h1
      · rw [h1]
        show st.next_id < st.next_id + 1
        omega
      · have := hfresh _ h1
        omega
  | some old_sid =>
    cases ho : alook old_sid st.sessions with
    | none =>
      rw [create_session_of_dangling now uid c st old_sid hu ho]
      refine ⟨rfl, rfl, alook_ains_self _ _ _, alook_ains_self _ _ _, ?_, ?_, rfl⟩
      · exact length_ains_absent _ _ _ hnone
      · intro p hp
        rcases mem_ains hp with h1 | h1
        · rw [h1]
          show st.next_id < st.next_id + 1
          omega
        · have := hfresh _ h1
          omega
    | some old =>
      have hlt : old_sid < st.next_id := hfresh _ (alook_mem ho)
      rw [create_session_of_mapped now uid c st old_sid old hu ho]
      refine ⟨rfl, rfl, alook_ains_self _ _ _, ?_, ?_, ?_, rfl⟩
      · rw [alook_ains_self]
      · have h2 : alook st.next_id
            (ains old_sid { old with is_active := false } st.sessions) = none := by
          rw [alook_ains_ne _ _ _ _ (by omega : st.next_id ≠ old_sid)]
          exact hnone
        rw [length_ains_absent _ _ _ h2, length_ains_present _ _ _ (by simp [ho])]
      · intro p hp
        rcases mem_ains hp with h1 | h1
        · rw [h1]
          show st.next_id < st.next_id + 1
          omega
        · rcases mem_ains h1 with h2 | h2
          · rw [h2]
            show old_sid < st.next_id + 1
            omega
          · have := hfresh _ h2
            omega

/-- C5: two `create_session` calls for the same user yield distinct session
ids; right after the second call the identity index names the new id, the
first session is still stored but deactivated — so `get_user_session` can
only reach the new one — it still counts in `total_sessions`, and the sweep
removes it. -/
theorem create_session_supersedes (now now2 : Nat) (uid : String)
    (c1 c2 : List (String × String)) (st : SMState) (sid1 sid2 : Nat) (st1 st2 : SMState)
    (hfresh : ∀ p ∈ st.sessions, p.1 < st.next_id)
    (h1 : SessionManager.create_session now uid c1 st = (sid1, st1))
    (h2 : SessionManager.create_session now2 uid c2 st1 = (sid2, st2)) :
    sid1 ≠ sid2
    ∧ alook uid st2.user_to_session = some sid2
    ∧ (∃ s1, alook sid1 st2.sessions = some s1 ∧ s1.is_active = false)
    ∧ (∀ t s, (SessionManager.get_user_session t uid st2).1 = some s → s.session_id = sid2)
    ∧ (SessionManager.get_session_stats st2).total_sessions =
        (SessionManager.get_session_stats st).total_sessions + 2
    ∧ (∀ t, alook sid1 (SessionManager.cleanup_expired_sessions t st2).sessions = none) := by
  have e1 : sid1 = (SessionManager.create_session now uid c1 st).1 := by rw [h1]
  have e2 : st1 = (SessionManager.create_session now uid c1 st).2 := by rw [h1]
  subst e1
  subst e2
  have e3 : sid2 = (SessionManager.create_session now2 uid c2
      (SessionManager.create_session now uid c1 st).2).1 := by rw [h2]
  have e4 : st2 = (SessionManager.create_session now2 uid c2
      (SessionManager.create_session now uid c1 st).2).2 := by rw [h2]
  subst e3
  subst e4
  obtain ⟨f1a, f1b, f1c, f1d, f1e, f1f, f1g⟩ := create_session_facts now uid c1 st hfresh
  have hfresh1 : ∀ p ∈ (SessionManager.create_session now uid c1 st).2.sessions,
      p.1 < (SessionManager.create_session now uid c1 st).2.next_id := by
    rw [f1b]
    exact f1f
  obtain ⟨f2a, f2b, f2c, f2d, f2e, f2f, f2g⟩ :=
    create_session_facts now2 uid c2 (SessionManager.create_session now uid c1 st).2 hfresh1
  have hne : (SessionManager.create_session now uid c1 st).1 ≠
      (SessionManager.create_session now2 uid c2
        (SessionManager.create_session now uid c1 st).2).1 := by
    rw [f1a, f2a, f1b]
    omega
  have hch2 := create_session_of_mapped now2 uid c2
    (SessionManager.create_session now uid c1 st).2 st.next_id
    { session_id := st.next_id, user_id := uid, created_at := now, last_activity := now,
      conversation_history := [], user_context := c1, is_active := true } f1c f1d
  have hlook1 : alook st.next_id (SessionManager.create_session now2 uid c2
      (SessionManager.create_session now uid c1 st).2).2.sessions =
      some { session_id := st.next_id, user_id := uid, created_at := now,
             last_activity := now, conversation_history := [], user_context := c1,
             is_active := false } := by
    rw [hch2]
    dsimp only
    rw [alook_ains_ne _ _ _ _ (by rw [f1b]; omega :
      st.next_id ≠ (SessionManager.create_session now uid c1 st).2.next_id)]
    exact alook_ains_self _ _ _
  refine ⟨hne, ?_, ?_, ?_, ?_, ?_⟩
  · rw [f2c, f2a]
  · rw [f1a]
    exact ⟨_, hlook1, rfl⟩
  · intro t s hgot
    unfold SessionManager.get_user_session at hgot
    rw [f2c] at hgot
    obtain ⟨s0, hso, hseq⟩ := get_session_some_elim t _ _ hgot
    rw [f2d] at hso
    injection hso with hso
    rw [hseq, ← hso, f2a]
  · unfold SessionManager.get_session_stats
    dsimp only
    rw [f2e, f1e]
  · intro t
    rw [cleanup_sessions, alook_filter_keys]
    rw [f1a, if_pos]
    refine mem_expired_ids t _ (alook_mem hlook1) ?_
    simp

/-- C5 witness: the supersession theorem applied to the empty registry. -/
theorem create_session_supersedes_witness :
    (SessionManager.create_session 0 "u" [] (initState 60)).1 ≠
      (SessionManager.create_session 1 "u" []
        (SessionManager.create_session 0 "u" [] (initState 60)).2).1 :=
  (create_session_supersedes 0 1 "u" [] [] (initState 60)
    (SessionManager.create_session 0 "u" [] (initState 60)).1
    (SessionManager.create_session 1 "u" []
      (SessionManager.create_session 0 "u" [] (initState 60)).2).1
    (SessionManager.create_session 0 "u" [] (initState 60)).2
    (SessionManager.create_session 1 "u" []
      (SessionManager.create_session 0 "u" [] (initState 60)).2).2
    (by simp [initState]) rfl rfl).1

/-- C6: after one sweep, every stored session is active and unexpired; no
identity-index entry dangles; and for every pre-sweep index entry, the entry
is deleted exactly when the session it pointed at was removed (kept with the
same value otherwise). -/
theorem sweep_correctness (now : Nat) (st : SMState) (hg : GoodState st) :
    (∀ sid s, alook sid (SessionManager.cleanup_expired_sessions now st).sessions = some s →
        s.is_active = true ∧ now - s.last_activity ≤ st.session_timeout_minutes)
    ∧ (∀ u sid,
        alook u (SessionManager.cleanup_expired_sessions now st).user_to_session = some sid →
        (alook sid (SessionManager.cleanup_expired_sessions now st).sessions).isSome = true)
    ∧ (∀ u sid, alook u st.user_to_session = some sid →
        (alook u (SessionManager.cleanup_expired_sessions now st).user_to_session = none ↔
          alook sid (SessionManager.cleanup_expired_sessions now st).sessions = none))
    ∧ (∀ u sid, alook u st.user_to_session = some sid →
        alook u (SessionManager.cleanup_expired_sessions now st).user_to_session = some sid ∨
        alook u (SessionManager.cleanup_expired_sessions now st).user_to_session = none) := by
  have hnd2 : (st.user_to_session.map Prod.fst).Nodup := hg.2.2.1
  refine ⟨?_, ?_, ?_, ?_⟩
  · intro sid s h
    rw [cleanup_sessions] at h
    have hmf := List.mem_filter.mp (alook_mem h)
    have hnot : ¬ sid ∈ SessionManager.expired_ids now st := by simpa using hmf.2
    refine ⟨?_, ?_⟩
    · cases hact : s.is_active with
      | true => rfl
      | false => exact absurd (mem_expired_ids now st hmf.1 (by simp [hact])) hnot
    · by_contra hexp
      refine hnot (mem_expired_ids now st hmf.1 ?_)
      have hb : s.is_expired now st.session_timeout_minutes = true := by
        simp only [UserSession.is_expired, decide_eq_true_eq]
        omega
      simp [hb]
  · intro u sid h
    obtain ⟨s, hs, _, _⟩ := goodState_index_target (goodState_cleanup now hg) h
    simp [hs]
  · intro u sid hu
    obtain ⟨s, hs, _, _⟩ := goodState_index_target hg hu
    rw [cleanup_eq now hg]
    dsimp only
    rw [alook_filter_values u _ _ hnd2, hu, alook_filter_keys]
    by_cases hin : sid ∈ SessionManager.expired_ids now st
    · simp [hin]
    · simp [hin, hs]
  · intro u sid hu
    rw [cleanup_eq now hg]
    dsimp only
    rw [alook_filter_values u _ _ hnd2, hu]
    by_cases hin : sid ∈ SessionManager.expired_ids now st
    · simp [hin]
    · simp [hin]

/-- C6 witness: against the one-user registry, sweeping at time 100 (session
expired) removes both the session and its index entry. -/
theorem sweep_correctness_witness :
    alook "alice" (SessionManager.cleanup_expired_sessions 100 aliceSM).user_to_session =
        none ↔
      alook 0 (SessionManager.cleanup_expired_sessions 100 aliceSM).sessions = none :=
  (sweep_correctness 100 aliceSM (by decide)).2.2.1 "alice" 0 (by decide)

/-- C7: in every state reachable by a sequence of registry operations from a
freshly constructed manager, every sessionId held by the identity index is a
key of the authoritative store and the session it names has is_active =
true. -/
theorem registry_index_invariant (m : Nat) (ops : List Op) (u : String) (sid : Nat)
    (h : alook u (runOps m ops).user_to_session = some sid) :
    ∃ s, alook sid (runOps m ops).sessions = some s ∧ s.is_active = true := by
  obtain ⟨s, hs, _, ha⟩ := goodState_index_target (goodState_runOps m ops) h
  exact ⟨s, hs, ha⟩

/-- C7 witness: the invariant theorem applied after one create. -/
theorem registry_index_invariant_witness :
    ∃ s, alook 0 (runOps 60 [Op.create 5 "alice" []]).sessions = some s ∧
      s.is_active = true :=
  registry_index_invariant 60 [Op.create 5 "alice" []] "alice" 0 (by decide)

/-- C8 counterexample: `close_session` on the already-closed session of
`closedState` returns true — the claim says a repeat close returns false —
while leaving the state unchanged. -/
theorem close_session_repeat_cex :
    closedSession.is_active = false
    ∧ (SessionManager.close_session 0 closedState).1 = true
    ∧ (SessionManager.close_session 0 closedState).2 = closedState := by
  refine ⟨rfl, rfl, by decide⟩

theorem set_inactive_eq {s : UserSession} (h : s.is_active = false) :
    { s with is_active := false } = s := by
  cases s
  simp_all

/-- C8 amended: `close_session` returns false exactly when the session id is
absent from the authoritative store (never created, or already swept), and
then changes nothing; on an id still present — even one already closed — it
returns true, and re-closing an already-closed session leaves the registry
state unchanged; no path raises an error. -/
theorem close_session_found_iff (sid : Nat) (st : SMState) (hg : GoodState st) :
    ((SessionManager.close_session sid st).1 = false ↔ alook sid st.sessions = none)
    ∧ (alook sid st.sessions = none → (SessionManager.close_session sid st).2 = st)
    ∧ (∀ s, alook sid st.sessions = some s → s.is_active = false →
        (SessionManager.close_session sid st).1 = true ∧
        (SessionManager.close_session sid st).2 = st) := by
  refine ⟨?_, ?_, ?_⟩
  · cases hs : alook sid st.sessions with
    | none =>
      unfold SessionManager.close_session
      rw [hs]
      simp
    | some s =>
      unfold SessionManager.close_session
      rw [hs]
      simp
  · intro hnone
    unfold SessionManager.close_session
    rw [hnone]
  · intro s hs hinact
    unfold SessionManager.close_session
    rw [hs]
    dsimp only
    refine ⟨rfl, ?_⟩
    rw [set_inactive_eq hinact, ains_of_alook_some _ _ _ hs]
    cases hm : alook s.user_id st.user_to_session with
    | none => rfl
    | some m =>
      dsimp only
      obtain ⟨sm2, hsm2, _, hact2⟩ := goodState_index_target hg hm
      have hne : m ≠ sid := by
        intro he
        rw [he, hs] at hsm2
        injection hsm2 with h2
        rw [h2] at hinact
        rw [hinact] at hact2
        simp at hact2
      rw [if_neg hne]

/-- C8 witness: the amended close theorem applied to the closed-session
registry. -/
theorem close_session_found_iff_witness :
    (SessionManager.close_session 0 closedState).1 = true ∧
      (SessionManager.close_session 0 closedState).2 = closedState :=
  (close_session_found_iff 0 closedState (by decide)).2.2 closedSession rfl rfl

/-- C10: `get_conversation_history` is not a pure read: on a present,
unexpired session it refreshes `last_activity` to `now` through the
`get_session` lookup it performs — keeping the session alive for a fresh TTL
window — while leaving the session's turns, user context and active flag,
every other session, and the identity index unchanged. -/
theorem history_read_refreshes (now sid maxTurns : Nat) (st : SMState) (s0 : UserSession)
    (hs : alook sid st.sessions = some s0)
    (hlive : now - s0.last_activity ≤ st.session_timeout_minutes) :
    alook sid (SessionManager.get_conversation_history now sid maxTurns st).2.sessions =
      some { s0 with last_activity := now }
    ∧ (∀ sid2, sid2 ≠ sid →
        alook sid2 (SessionManager.get_conversation_history now sid maxTurns st).2.sessions =
          alook sid2 st.sessions)
    ∧ (SessionManager.get_conversation_history now sid maxTurns st).2.user_to_session =
        st.user_to_session
    ∧ (∀ t, t ≤ now + st.session_timeout_minutes →
        ((SessionManager.get_session t sid
            (SessionManager.get_conversation_history now sid maxTurns st).2).1).isSome =
          true) := by
  have hst : (SessionManager.get_conversation_history now sid maxTurns st).2 =
      { st with sessions := ains sid { s0 with last_activity := now } st.sessions } := by
    rw [get_conversation_history_state,
      SessionManager.get_session_of_live now sid st s0 hs hlive]
  rw [hst]
  refine ⟨alook_ains_self _ _ _, ?_, rfl, ?_⟩
  · intro sid2 hne
    exact alook_ains_ne _ _ _ _ hne
  · intro t ht
    refine (SessionManager.get_session_some_iff t sid _).mpr ?_
    refine ⟨{ s0 with last_activity := now }, alook_ains_self _ _ _, ?_⟩
    dsimp only
    omega

/-- C10 witness: the refresh theorem applied to the one-user registry at time
10. -/
theorem history_read_refreshes_witness :
    alook 0 (SessionManager.get_conversation_history 10 0 5 aliceSM).2.sessions =
      some { aliceSession with last_activity := 10 } :=
  (history_read_refreshes 10 0 5 aliceSM aliceSession rfl (by decide)).1

end Haystack
